import Mathlib

/-!
Verification of the backtesting/drawdown repository.

This file gives a shallow embedding of the two core components:

* the drawdown analyzers
  (`calculate_lowest_drawdown.py` — the naive zero-crossing variant, and
   `New folder/main.py` — the vectorized cumulative-sum variant), and
* the trade simulators
  (`backtest-trading-bot-v1.py` — the capital-tracking simulator, and
   `main.py` — the lightweight forward-scan simulator),

and proves or refutes the specification claims about them.
Python floats are embedded as rationals; machine reals do not overflow in the
ranges exercised here, so the embedding is exact on the stated inputs.
-/

namespace TradingBot

/-! ## Data model: the `reward_risk` CSV column

A cell is either the literal string `"SL"` (the loss sentinel) or a numeric
reward multiple.  This mirrors the column read by both drawdown variants. -/

inductive RR where
  | sl : RR
  | num (q : ℚ) : RR
deriving DecidableEq

/-- Embeds `convert_to_numeric` from both drawdown scripts:
`"SL"` becomes `0.0`, anything else is parsed as its float value. -/
def convert_to_numeric : RR → ℚ
  | .sl => 0
  | .num q => q

/-- The string test `reward_risk == "SL"` used by the naive variant. -/
def isSLCell : RR → Bool
  | .sl => true
  | .num _ => false

/-! ## Shared arithmetic on mapped values -/

/-- The mapping rule used by both variants for a reward level:
`+reward_level` if the multiple is `≥ reward_level`, else `-1`
(`np.where(rr_values >= reward_level, reward_level, -1)` and the
`if rr_value >= reward_level` branches). -/
def mapValue (R : ℤ) (q : ℚ) : ℤ := if (R : ℚ) ≤ q then R else -1

/-- The mapped value sequence for a reward level. -/
def values (rr : List RR) (R : ℤ) : List ℤ :=
  rr.map (fun c => mapValue R (convert_to_numeric c))

/-- Running cumulative sums starting from accumulator `acc`. -/
def cumsumFrom (acc : ℤ) : List ℤ → List ℤ
  | [] => []
  | v :: vs => (acc + v) :: cumsumFrom (acc + v) vs

/-- `np.cumsum`: the list of partial sums `[v0, v0+v1, ...]`. -/
def cumsum (l : List ℤ) : List ℤ := cumsumFrom 0 l

/-- `np.min` on an integer array; the empty case (0) is never reached by the
embedded code, which only applies it to non-empty segments. -/
def npMin : List ℤ → ℤ
  | [] => 0
  | x :: xs => xs.foldl min x

/-- `np.max` on a float array; the empty case (0) is never reached on the
paths modelled here. -/
def npMaxQ : List ℚ → ℚ
  | [] => 0
  | x :: xs => xs.foldl max x

/-- Python `int(q)`: truncation toward zero. -/
def int_of (q : ℚ) : ℤ := if 0 ≤ q then ⌊q⌋ else ⌈q⌉

/-! ## Vectorized variant (`New folder/main.py`) -/

/-- `sl_positions = np.where(rr_values == 0)[0]`: indices whose numeric
multiple is zero. -/
def sl_positions (rr : List RR) : List ℕ :=
  (List.range rr.length).filter
    (fun i => decide (convert_to_numeric (rr.getD i RR.sl) = 0))

/-- One candidate start of the vectorized variant:
`np.min(np.minimum(np.cumsum(values[start:]), 0))`. -/
def lowestInRun (vals : List ℤ) : ℤ :=
  npMin ((cumsum vals).map (fun c => min c 0))

/-- One iteration of the `for start_idx in sl_positions` loop, generic in the
per-start evaluation `f`.  `none` stands for the initial
`absolute_lowest = float('inf')`, `best_starting_position = None`;
the update fires on strictly smaller values only. -/
def selStep (f : ℕ → ℤ) (acc : Option (ℤ × ℕ)) (s : ℕ) : Option (ℤ × ℕ) :=
  match acc with
  | none => some (f s, s)
  | some (b, bi) => if f s < b then some (f s, s) else some (b, bi)

/-- The per-reward-level result of the vectorized variant:
fold of the candidate-start loop over all SL positions. -/
def nfLevel (rr : List RR) (R : ℤ) : Option (ℤ × ℕ) :=
  (sl_positions rr).foldl
    (selStep (fun s => lowestInRun ((values rr R).drop s))) none

/-- `max_reward = int(np.max(rr_values))` of the vectorized variant. -/
def max_reward (rr : List RR) : ℤ :=
  int_of (npMaxQ (rr.map convert_to_numeric))

/-- `reward_levels = list(range(1, max_reward + 1))`. -/
def reward_levels (rr : List RR) : List ℤ :=
  (List.range (max_reward rr).toNat).map (fun k => (k : ℤ) + 1)

/-- Top level of the vectorized `calculate_lowest_drawdown`
(`New folder/main.py`): if no SL position exists the function prints an error
and returns without results (`none`); otherwise one row per reward level. -/
def calculate_lowest_drawdown_vec (rr : List RR) :
    Option (List (ℤ × Option (ℤ × ℕ))) :=
  if sl_positions rr = [] then none
  else some ((reward_levels rr).map (fun R => (R, nfLevel rr R)))

/-! ## Naive zero-crossing variant (`calculate_lowest_drawdown.py`) -/

/-- Failure modes of the naive variant: the `NameError`/`UnboundLocalError`
raised when `next_sl_idx` is read before its first assignment, and the
`ValueError` raised by `int(nan)` when the input is empty. -/
inductive DDErr where
  | nameError : DDErr
  | valueError : DDErr
deriving DecidableEq

/-- Phase-1 loop state: `running_total`, `lowest_overall`,
`zero_crossing_positions`, and the local variable `next_sl_idx`
(`none` models "never assigned yet"; Python never assigns it `None`). -/
structure P1State where
  running : ℤ
  lowest : ℤ
  zeros : List ℕ
  nextSl : Option ℕ
deriving DecidableEq

/-- The mapped value consulted at index `i` (`trades.iloc[i]["rr_numeric"]`
fed through the reward-level rule). -/
def valAt (rr : List RR) (R : ℤ) (i : ℕ) : ℤ :=
  mapValue R (convert_to_numeric (rr.getD i RR.sl))

/-- `for j in range(i + 1, len(trades)): if ... == "SL": next_sl_idx = j; break`
— the first SL index strictly after `i`, if any. -/
def findSLAfter (rr : List RR) (i : ℕ) : Option ℕ :=
  (List.range' (i + 1) (rr.length - (i + 1))).find?
    (fun j => isSLCell (rr.getD j (RR.num 1)))

/-- One iteration of the phase-1 loop of the naive variant.  When the running
total reaches exactly 0 and no later SL exists, Python reads `next_sl_idx`:
if it was assigned on an earlier iteration the stale value is appended again,
otherwise the iteration aborts with a `NameError`. -/
def phase1Step (rr : List RR) (R : ℤ) (st : P1State) (i : ℕ) :
    Except DDErr P1State :=
  let v := valAt rr R i
  let rt := st.running + v
  let low := if rt < st.lowest then rt else st.lowest
  if rt = 0 then
    match findSLAfter rr i with
    | some j => .ok ⟨rt, low, st.zeros ++ [j], some j⟩
    | none =>
      match st.nextSl with
      | some j => .ok ⟨rt, low, st.zeros ++ [j], some j⟩
      | none => .error .nameError
  else
    .ok ⟨rt, low, st.zeros, st.nextSl⟩

/-- The phase-1 loop over a list of trade indices; the first `NameError`
aborts the whole computation, as an uncaught Python exception would. -/
def phase1Go (rr : List RR) (R : ℤ) (st : P1State) :
    List ℕ → Except DDErr P1State
  | [] => .ok st
  | i :: is =>
    match phase1Step rr R st i with
    | .ok st1 => phase1Go rr R st1 is
    | .error e => .error e

/-- Phase 1 of the naive variant: one pass over all trades collecting the
whole-sequence lowest point and the zero-crossing candidate starts. -/
def phase1 (rr : List RR) (R : ℤ) : Except DDErr P1State :=
  phase1Go rr R ⟨0, 0, [], none⟩ (List.range rr.length)

/-- The phase-2 inner forward scan: running total from 0, recording the
minimum reached (`if running_total < lowest_in_this_run`). -/
def scanGo (rt low : ℤ) : List ℤ → ℤ
  | [] => low
  | v :: vs => scanGo (rt + v) (if rt + v < low then rt + v else low) vs

/-- `lowest_in_this_run` for one candidate start of the naive variant. -/
def naiveScanLowest (vals : List ℤ) : ℤ := scanGo 0 0 vals

/-- One iteration of the phase-2 candidate loop, generic in the per-start
evaluation `f`: update `lowest_overall` / `best_starting_position` on
strictly smaller values only. -/
def pickStep (f : ℕ → ℤ) (acc : ℤ × ℕ) (s : ℕ) : ℤ × ℕ :=
  if f s < acc.1 then (f s, s) else acc

/-- The per-reward-level result of the naive variant: phase 1, then the
phase-2 loop over the collected candidate starts, initialized with the
phase-1 lowest and `best_starting_position = 0`. -/
def naiveLevel (rr : List RR) (R : ℤ) : Except DDErr (ℤ × ℕ) :=
  match phase1 rr R with
  | .ok st =>
    .ok (st.zeros.foldl
      (pickStep (fun s => naiveScanLowest ((values rr R).drop s)))
      (st.lowest, 0))
  | .error e => .error e

/-- The per-level loop of the naive variant; a raised exception at any level
aborts the whole run. -/
def naiveLevels (rr : List RR) : List ℤ → Except DDErr (List (ℤ × ℤ × ℕ))
  | [] => .ok []
  | R :: Rs =>
    match naiveLevel rr R with
    | .ok p =>
      match naiveLevels rr Rs with
      | .ok rest => .ok ((R, p.1, p.2) :: rest)
      | .error e => .error e
    | .error e => .error e

/-- Top level of the naive `calculate_lowest_drawdown`: on an empty input
`int(trades["rr_numeric"].max())` is `int(nan)` and raises; otherwise one
row `(Reward_Level, Absolute_Lowest, Starting_Position)` per reward level. -/
def calculate_lowest_drawdown_naive (rr : List RR) :
    Except DDErr (List (ℤ × ℤ × ℕ)) :=
  if rr.isEmpty then .error .valueError
  else naiveLevels rr (reward_levels rr)

/-! ## The two candidate-loop aggregations, parameterized by the candidate
start set (claim C3 compares them on a common set `S`). -/

/-- The nested-loop variant's aggregation over a given candidate start list:
the phase-2 loop of `calculate_lowest_drawdown.py`, whose accumulator starts
at the phase-1 whole-sequence lowest with start index 0. -/
def nestedAggregate (rr : List RR) (R : ℤ) (S : List ℕ) : ℤ × ℕ :=
  S.foldl (pickStep (fun s => naiveScanLowest ((values rr R).drop s)))
    (naiveScanLowest (values rr R), 0)

/-- The cumulative-sum variant's aggregation over a given candidate start
list: the loop of `New folder/main.py`, whose accumulator starts at
infinity/`None`. -/
def vecAggregate (rr : List RR) (R : ℤ) (S : List ℕ) : Option (ℤ × ℕ) :=
  S.foldl (selStep (fun s => lowestInRun ((values rr R).drop s))) none

/-! ## Helper lemmas on folds, minima and cumulative sums -/

lemma foldl_min_min (l : List ℤ) : ∀ a b : ℤ,
    l.foldl min (min a b) = min a (l.foldl min b) := by
  induction l with
  | nil => intro a b; rfl
  | cons x xs ih =>
    intro a b
    simp only [List.foldl_cons]
    rw [min_assoc, ih]

lemma foldl_min_le_init (l : List ℤ) : ∀ a : ℤ, l.foldl min a ≤ a := by
  induction l with
  | nil => intro a; exact le_refl a
  | cons x xs ih =>
    intro a
    simp only [List.foldl_cons]
    exact le_trans (ih (min a x)) (min_le_left a x)

lemma foldl_min_le_mem (l : List ℤ) : ∀ (a y : ℤ), y ∈ l → l.foldl min a ≤ y := by
  induction l with
  | nil => intro a y h; cases h
  | cons x xs ih =>
    intro a y h
    simp only [List.foldl_cons]
    rcases List.mem_cons.mp h with h | h
    · subst h
      exact le_trans (foldl_min_le_init xs (min a y)) (min_le_right a y)
    · exact ih (min a x) y h

lemma foldl_min_cases (l : List ℤ) : ∀ a : ℤ,
    l.foldl min a = a ∨ ∃ y ∈ l, l.foldl min a = y := by
  induction l with
  | nil => intro a; exact Or.inl rfl
  | cons x xs ih =>
    intro a
    simp only [List.foldl_cons]
    rcases ih (min a x) with h | ⟨y, hy, h⟩
    · rcases min_choice a x with hm | hm
      · exact Or.inl (h.trans hm)
      · exact Or.inr ⟨x, List.mem_cons_self x xs, h.trans hm⟩
    · exact Or.inr ⟨y, List.mem_cons_of_mem x hy, h⟩

lemma npMin_le (l : List ℤ) (y : ℤ) (h : y ∈ l) : npMin l ≤ y := by
  cases l with
  | nil => cases h
  | cons x xs =>
    rcases List.mem_cons.mp h with h | h
    · subst h
      exact foldl_min_le_init xs y
    · exact foldl_min_le_mem xs x y h

lemma npMin_mem (l : List ℤ) (h : l ≠ []) : npMin l ∈ l := by
  cases l with
  | nil => exact absurd rfl h
  | cons x xs =>
    show xs.foldl min x ∈ x :: xs
    rcases foldl_min_cases xs x with h1 | ⟨y, hy, h1⟩
    · rw [h1]
      exact List.mem_cons_self x xs
    · rw [h1]
      exact List.mem_cons_of_mem x hy

lemma foldl_min_map_zero (l : List ℤ) : ∀ a : ℤ,
    (l.map (fun c => min c 0)).foldl min (min a 0) = min (l.foldl min a) 0 := by
  induction l with
  | nil => intro a; rfl
  | cons c l ih =>
    intro a
    simp only [List.map_cons, List.foldl_cons]
    rw [min_min_min_comm, min_self, ih]

lemma npMin_map_min_zero (l : List ℤ) :
    npMin (l.map (fun c => min c 0)) = min (npMin l) 0 := by
  cases l with
  | nil => simp [npMin]
  | cons x xs =>
    show (xs.map (fun c => min c 0)).foldl min (min x 0) = min (xs.foldl min x) 0
    exact foldl_min_map_zero xs x

lemma ite_lt_eq_min (a b : ℤ) : (if a < b then a else b) = min b a := by
  rw [min_def]
  split <;> split <;> omega

lemma scanGo_eq_foldl (l : List ℤ) : ∀ rt low : ℤ,
    scanGo rt low l = (cumsumFrom rt l).foldl min low := by
  induction l with
  | nil => intro rt low; rfl
  | cons v vs ih =>
    intro rt low
    show scanGo (rt + v) (if rt + v < low then rt + v else low) vs =
      (cumsumFrom (rt + v) vs).foldl min (min low (rt + v))
    rw [ih, ite_lt_eq_min]

lemma foldl_min_zero (l : List ℤ) : l.foldl min 0 = min (npMin l) 0 := by
  cases l with
  | nil => simp [npMin]
  | cons x xs =>
    show xs.foldl min (min 0 x) = min (xs.foldl min x) 0
    rw [foldl_min_min, min_comm]

lemma naiveScanLowest_eq (vals : List ℤ) :
    naiveScanLowest vals = min (npMin (cumsum vals)) 0 := by
  show scanGo 0 0 vals = min (npMin (cumsum vals)) 0
  rw [scanGo_eq_foldl]
  exact foldl_min_zero (cumsumFrom 0 vals)

lemma lowestInRun_eq (vals : List ℤ) :
    lowestInRun vals = min (npMin (cumsum vals)) 0 :=
  npMin_map_min_zero (cumsum vals)

lemma naiveScanLowest_eq_lowestInRun (vals : List ℤ) :
    naiveScanLowest vals = lowestInRun vals := by
  rw [naiveScanLowest_eq, lowestInRun_eq]

lemma lowestInRun_nonpos (vals : List ℤ) : lowestInRun vals ≤ 0 := by
  rw [lowestInRun_eq]
  exact min_le_right _ _

lemma cumsumFrom_eq_map_range (l : List ℤ) : ∀ acc : ℤ,
    cumsumFrom acc l =
      (List.range l.length).map (fun k => acc + (l.take (k + 1)).sum) := by
  induction l with
  | nil => intro acc; rfl
  | cons v vs ih =>
    intro acc
    simp only [cumsumFrom, List.length_cons, List.range_succ_eq_map,
      List.map_cons, List.map_map]
    refine List.cons_eq_cons.mpr ⟨by simp, ?_⟩
    rw [ih (acc + v)]
    refine List.map_congr_left ?_
    intro k _
    simp [Function.comp, List.take_succ_cons, add_assoc]

lemma cumsum_eq_map_range (l : List ℤ) :
    cumsum l = (List.range l.length).map (fun k => (l.take (k + 1)).sum) := by
  show cumsumFrom 0 l = _
  rw [cumsumFrom_eq_map_range]
  refine List.map_congr_left ?_
  intro k _
  rw [zero_add]

/-! ## The selection folds: first-strict-improvement semantics -/

lemma selStep_some (f : ℕ → ℤ) (b : ℤ) (bi s : ℕ) :
    selStep f (some (b, bi)) s = some (pickStep f (b, bi) s) := by
  by_cases h : f s < b <;> simp [selStep, pickStep, h]

lemma foldl_selStep_some (f : ℕ → ℤ) (S : List ℕ) : ∀ acc : ℤ × ℕ,
    S.foldl (selStep f) (some acc) = some (S.foldl (pickStep f) acc) := by
  induction S with
  | nil => intro acc; rfl
  | cons s S ih =>
    intro acc
    obtain ⟨b, bi⟩ := acc
    simp only [List.foldl_cons, selStep_some]
    exact ih (pickStep f (b, bi) s)

lemma foldl_pickStep_spec (f : ℕ → ℤ) (S : List ℕ) : ∀ (b : ℤ) (bi : ℕ),
    (S.foldl (pickStep f) (b, bi) = (b, bi) ∧ ∀ s ∈ S, b ≤ f s) ∨
    ((S.foldl (pickStep f) (b, bi)).1 < b ∧
      (S.foldl (pickStep f) (b, bi)).2 ∈ S ∧
      (S.foldl (pickStep f) (b, bi)).1 = f (S.foldl (pickStep f) (b, bi)).2 ∧
      (∀ s ∈ S, (S.foldl (pickStep f) (b, bi)).1 ≤ f s) ∧
      S.find? (fun s => f s == (S.foldl (pickStep f) (b, bi)).1) =
        some (S.foldl (pickStep f) (b, bi)).2) := by
  induction S with
  | nil =>
    intro b bi
    exact Or.inl ⟨rfl, by simp⟩
  | cons s S ih =>
    intro b bi
    by_cases h : f s < b
    · have hstep : (s :: S).foldl (pickStep f) (b, bi) =
          S.foldl (pickStep f) (f s, s) := by
        simp [List.foldl_cons, pickStep, h]
      rcases ih (f s) s with ⟨heq, hbnd⟩ | ⟨hlt, hmem, heqf, hbnd, hfind⟩
      · refine Or.inr ?_
        rw [hstep, heq]
        refine ⟨h, List.mem_cons_self s S, rfl, ?_, ?_⟩
        · intro t ht
          rcases List.mem_cons.mp ht with ht | ht
          · subst ht; exact le_refl _
          · exact hbnd t ht
        · exact List.find?_cons_of_pos S (by simp)
      · refine Or.inr ?_
        rw [hstep]
        refine ⟨hlt.trans h, List.mem_cons_of_mem s hmem, heqf, ?_, ?_⟩
        · intro t ht
          rcases List.mem_cons.mp ht with ht | ht
          · subst ht; exact hlt.le
          · exact hbnd t ht
        · rw [List.find?_cons_of_neg S (by simp; omega)]
          exact hfind
    · have hb : b ≤ f s := not_lt.mp h
      have hstep : (s :: S).foldl (pickStep f) (b, bi) =
          S.foldl (pickStep f) (b, bi) := by
        simp [List.foldl_cons, pickStep, h]
      rcases ih b bi with ⟨heq, hbnd⟩ | ⟨hlt, hmem, heqf, hbnd, hfind⟩
      · refine Or.inl ⟨hstep.trans heq, ?_⟩
        intro t ht
        rcases List.mem_cons.mp ht with ht | ht
        · subst ht; exact hb
        · exact hbnd t ht
      · refine Or.inr ?_
        rw [hstep]
        refine ⟨hlt, List.mem_cons_of_mem s hmem, heqf, ?_, ?_⟩
        · intro t ht
          rcases List.mem_cons.mp ht with ht | ht
          · subst ht; exact le_trans hlt.le hb
          · exact hbnd t ht
        · rw [List.find?_cons_of_neg S (by simp; omega)]
          exact hfind

lemma foldl_selStep_none_spec (f : ℕ → ℤ) (S : List ℕ) (h : S ≠ []) :
    ∃ low w, S.foldl (selStep f) none = some (low, w) ∧
      (∀ s ∈ S, low ≤ f s) ∧ w ∈ S ∧ low = f w ∧
      S.find? (fun s => f s == low) = some w := by
  cases S with
  | nil => exact absurd rfl h
  | cons s S =>
    have h0 : (s :: S).foldl (selStep f) none =
        some (S.foldl (pickStep f) (f s, s)) := by
      simp only [List.foldl_cons]
      show S.foldl (selStep f) (some (f s, s)) = _
      exact foldl_selStep_some f S (f s, s)
    rcases foldl_pickStep_spec f S (f s) s with
      ⟨heq, hbnd⟩ | ⟨hlt, hmem, heqf, hbnd, hfind⟩
    · refine ⟨f s, s, by rw [h0, heq], ?_, List.mem_cons_self s S, rfl, ?_⟩
      · intro t ht
        rcases List.mem_cons.mp ht with ht | ht
        · subst ht; exact le_refl _
        · exact hbnd t ht
      · exact List.find?_cons_of_pos S (by simp)
    · refine ⟨(S.foldl (pickStep f) (f s, s)).1,
        (S.foldl (pickStep f) (f s, s)).2, by rw [h0], ?_,
        List.mem_cons_of_mem s hmem, heqf, ?_⟩
      · intro t ht
        rcases List.mem_cons.mp ht with ht | ht
        · subst ht; exact hlt.le
        · exact hbnd t ht
      · rw [List.find?_cons_of_neg S (by simp; omega)]
        exact hfind

/-! ## Phase 1 of the naive variant tracks the whole-sequence forward scan -/

lemma range_map_getD {α β : Type} (l : List α) (d : α) (f : α → β) :
    (List.range l.length).map (fun i => f (l.getD i d)) = l.map f := by
  induction l with
  | nil => rfl
  | cons a l ih =>
    simp only [List.length_cons, List.range_succ_eq_map, List.map_cons,
      List.map_map]
    refine List.cons_eq_cons.mpr ⟨rfl, ?_⟩
    refine Eq.trans (List.map_congr_left ?_) ih
    intro i _
    simp [Function.comp]

lemma phase1Step_ok {rr : List RR} {R : ℤ} {st : P1State} {i : ℕ}
    {s1 : P1State} (h : phase1Step rr R st i = Except.ok s1) :
    s1.running = st.running + valAt rr R i ∧
    s1.lowest = if st.running + valAt rr R i < st.lowest
      then st.running + valAt rr R i else st.lowest := by
  simp only [phase1Step] at h
  split at h
  · split at h
    · injection h with h
      subst h
      exact ⟨rfl, rfl⟩
    · split at h
      · injection h with h
        subst h
        exact ⟨rfl, rfl⟩
      · cases h
  · injection h with h
    subst h
    exact ⟨rfl, rfl⟩

lemma phase1Go_lowest (rr : List RR) (R : ℤ) (is : List ℕ) :
    ∀ st st' : P1State, phase1Go rr R st is = Except.ok st' →
      st'.lowest = scanGo st.running st.lowest (is.map (valAt rr R)) := by
  induction is with
  | nil =>
    intro st st' h
    injection h with h
    subst h
    rfl
  | cons i is ih =>
    intro st st' h
    simp only [phase1Go] at h
    cases hstep : phase1Step rr R st i with
    | ok st1 =>
      rw [hstep] at h
      have hfacts := phase1Step_ok hstep
      simp only [List.map_cons, scanGo]
      rw [ih st1 st' h, hfacts.1, hfacts.2]
    | error e =>
      rw [hstep] at h
      cases h

lemma phase1_lowest {rr : List RR} {R : ℤ} {st : P1State}
    (h : phase1 rr R = Except.ok st) :
    st.lowest = naiveScanLowest (values rr R) := by
  have h1 := phase1Go_lowest rr R (List.range rr.length) ⟨0, 0, [], none⟩ st h
  rw [h1]
  have hm : (List.range rr.length).map (valAt rr R) = values rr R :=
    range_map_getD rr RR.sl (fun c => mapValue R (convert_to_numeric c))
  rw [hm]
  rfl

/-! ## Trade simulator (`backtest-trading-bot-v1.py`) -/

inductive Side where
  | buy : Side
  | sell : Side
deriving DecidableEq

inductive TStatus where
  | open_ : TStatus
  | closed : TStatus
deriving DecidableEq

/-- The `reward_risk` field of a trade dict: `None` before close, the numeric
0/1 written by `check_trade_status`, or the string `"SL"` written at end of
data. -/
inductive RRField where
  | unset : RRField
  | slString : RRField
  | num (q : ℚ) : RRField
deriving DecidableEq

structure Trade where
  side : Side
  entry : ℚ
  stop_loss : ℚ
  take_profit : ℚ
  distance : ℚ
  position_size : ℚ
  status : TStatus
  profit : ℚ
  reward_risk : RRField
  exit_price : Option ℚ
  exit_date : Option String
deriving DecidableEq

structure Candle where
  date : String
  time : String
  open_p : ℚ
  high : ℚ
  low : ℚ
  close : ℚ
deriving DecidableEq

def ENTRY_OFFSET : ℚ := 2 / 10

def SL_OFFSET : ℚ := 2 / 10

def POSITION_SIZE_PERCENT : ℚ := 29 / 1000

def EXCLUDED_TIME : String := "01:30"

/-- One entry of the `DISTANCE_FILTERS` config: a single integer or an
inclusive integer range (a Python tuple). -/
inductive DistFilter where
  | one (v : ℤ) : DistFilter
  | between (a b : ℤ) : DistFilter
deriving DecidableEq

def DISTANCE_FILTERS : Side → List DistFilter
  | .buy =>
    [.one 3, .between 6 10, .one 12, .one 14, .between 16 17, .one 19,
      .one 23, .one 26, .one 28, .one 31, .between 36 37, .between 42 45,
      .between 47 48, .between 52 56, .between 58 71, .one 59]
  | .sell =>
    [.one 2, .between 4 11, .between 13 19, .between 21 22, .between 24 25,
      .one 29, .between 31 34, .between 36 38, .one 40, .one 42, .one 47,
      .between 49 56, .one 58, .between 62 64, .between 67 72, .one 74,
      .between 77 94]

/-- One iteration of the filter loop body: range check for tuples, equality
for single values. -/
def matchesFilter (k : ℤ) : DistFilter → Bool
  | .one v => decide (k = v)
  | .between a b => decide (a ≤ k ∧ k ≤ b)

/-- The `for f in filters` loop with early `return True`. -/
def filterLoop (k : ℤ) : List DistFilter → Bool
  | [] => false
  | f :: fs => if matchesFilter k f then true else filterLoop k fs

/-- `is_distance_filtered`: the candidate distance is reduced by
`int(np.floor(distance))` — the floor, not the nearest integer — before the
membership test. -/
def is_distance_filtered (d : ℚ) (side : Side) : Bool :=
  filterLoop ⌊d⌋ (DISTANCE_FILTERS side)

/-- Follows the spec's words for claim C8 ("evaluated against the distance
rounded to the nearest integer"), for comparison with the source's
flooring rule above. -/
def is_distance_filtered_nearest (d : ℚ) (side : Side) : Bool :=
  filterLoop (round d) (DISTANCE_FILTERS side)

/-- `get_trade_type`: `"Buy" if candle["close"] > candle["open"] else "Sell"`.
A doji (`close == open`) falls into the `else` branch and is classified
`Sell`. -/
def get_trade_type (cd : Candle) : Side :=
  if cd.open_p < cd.close then .buy else .sell

def calculate_entry (cd : Candle) : Side → ℚ
  | .buy => cd.close + ENTRY_OFFSET
  | .sell => cd.close - ENTRY_OFFSET

def calculate_stop_loss (cd : Candle) : Side → ℚ
  | .buy => cd.low - SL_OFFSET
  | .sell => cd.high + SL_OFFSET

def calculate_distance (entry stop_loss : ℚ) : ℚ := |entry - stop_loss|

def calculate_take_profit (entry distance : ℚ) : Side → ℚ
  | .buy => entry + distance
  | .sell => entry - distance

/-- `check_trade_status`: the per-candle close check.  The stop-loss branch
is tested first and returns immediately, so it shadows a take-profit hit on
the same candle. -/
def check_trade_status (t : Trade) (cd : Candle) : Trade :=
  if t.status ≠ TStatus.open_ then t
  else
    match t.side with
    | .buy =>
      if cd.low ≤ t.stop_loss then
        { t with
          status := .closed
          exit_price := some t.stop_loss
          exit_date := some (cd.date ++ " " ++ cd.time)
          profit := -t.distance * t.position_size
          reward_risk := .num 0 }
      else if t.take_profit ≤ cd.high then
        { t with
          status := .closed
          exit_price := some t.take_profit
          exit_date := some (cd.date ++ " " ++ cd.time)
          profit := t.distance * t.position_size
          reward_risk := .num 1 }
      else t
    | .sell =>
      if t.stop_loss ≤ cd.high then
        { t with
          status := .closed
          exit_price := some t.stop_loss
          exit_date := some (cd.date ++ " " ++ cd.time)
          profit := -t.distance * t.position_size
          reward_risk := .num 0 }
      else if cd.low ≤ t.take_profit then
        { t with
          status := .closed
          exit_price := some t.take_profit
          exit_date := some (cd.date ++ " " ++ cd.time)
          profit := t.distance * t.position_size
          reward_risk := .num 1 }
      else t

def calculate_unrealized_pnl (t : Trade) (current_price : ℚ) : ℚ :=
  if t.status ≠ TStatus.open_ then 0
  else
    match t.side with
    | .buy => (current_price - t.entry) * t.position_size
    | .sell => (t.entry - current_price) * t.position_size

/-- The open-evaluation step of `run_backtest` for one candle (lines
240-301): excluded-time skip, direction, entry/stop/distance, the
forbidden-distance filter, the free-capital check, and position sizing. -/
def open_evaluation (cd : Candle) (capital : ℚ)
    (open_positions : List Trade) : Option Trade :=
  if cd.time = EXCLUDED_TIME then none
  else
    let trade_type := get_trade_type cd
    let entry := calculate_entry cd trade_type
    let stop_loss := calculate_stop_loss cd trade_type
    let distance := calculate_distance entry stop_loss
    if is_distance_filtered distance trade_type then none
    else
      let current_used :=
        (open_positions.map (fun t => t.entry * t.position_size)).sum
      let available := capital - current_used
      if available ≤ 0 then none
      else
        some { side := trade_type
               entry := entry
               stop_loss := stop_loss
               take_profit := calculate_take_profit entry distance trade_type
               distance := distance
               position_size := available * POSITION_SIZE_PERCENT / entry
               status := .open_
               profit := 0
               reward_risk := .unset
               exit_price := none
               exit_date := none }

/-- The end-of-series step of `run_backtest` (lines 312-318) applied to one
trade: a still-open trade gets `reward_risk = "SL"` unconditionally, exit at
the last candle's close, and its unrealized P&L as profit.  Its `status`
field is left untouched. -/
def finalize_open_trade (last : Candle) (t : Trade) : Trade :=
  if t.status = TStatus.open_ then
    { t with
      reward_risk := .slString
      exit_price := some last.close
      exit_date := some (last.date ++ " " ++ last.time)
      profit := calculate_unrealized_pnl t last.close }
  else t

/-! ## Lightweight simulator (`main.py`) -/

/-- The direction decision of `backtest_candle_strategy`: bullish candle →
Buy with its entry/stop, bearish → Sell, doji → `continue` (no trade). -/
def decide_direction (entry_offset stop_offset : ℚ) (cd : Candle) :
    Option (Side × ℚ × ℚ) :=
  if cd.open_p < cd.close then
    some (.buy, cd.close + entry_offset, cd.low - stop_offset)
  else if cd.close < cd.open_p then
    some (.sell, cd.close - entry_offset, cd.high + stop_offset)
  else none

/-! ## Predicates used to state the claims -/

/-- The stop-loss condition of claim C2: for a Buy `low ≤ stop_loss`, for a
Sell `high ≥ stop_loss`. -/
def sl_hit (t : Trade) (cd : Candle) : Prop :=
  match t.side with
  | .buy => cd.low ≤ t.stop_loss
  | .sell => t.stop_loss ≤ cd.high

/-- The take-profit condition of claim C2: for a Buy `high ≥ take_profit`,
for a Sell `low ≤ take_profit`. -/
def tp_hit (t : Trade) (cd : Candle) : Prop :=
  match t.side with
  | .buy => t.take_profit ≤ cd.high
  | .sell => cd.low ≤ t.take_profit

/-- A forbidden-distance entry matched by an integer, as the spec words it:
equality for single values, inclusive bounds for ranges. -/
def matchesSpec (k : ℤ) : DistFilter → Prop
  | .one v => k = v
  | .between a b => a ≤ k ∧ k ≤ b

lemma matchesFilter_eq {k : ℤ} {f : DistFilter} :
    matchesFilter k f = true ↔ matchesSpec k f := by
  cases f <;> simp [matchesFilter, matchesSpec]

lemma filterLoop_iff (k : ℤ) (fs : List DistFilter) :
    filterLoop k fs = true ↔ ∃ f ∈ fs, matchesSpec k f := by
  induction fs with
  | nil => simp [filterLoop]
  | cons f fs ih =>
    by_cases h : matchesFilter k f
    · rw [filterLoop, if_pos h]
      simp only [true_iff]
      exact ⟨f, List.mem_cons_self f fs, matchesFilter_eq.mp h⟩
    · rw [filterLoop, if_neg h, ih]
      constructor
      · rintro ⟨g, hg, hm⟩
        exact ⟨g, List.mem_cons_of_mem f hg, hm⟩
      · rintro ⟨g, hg, hm⟩
        rcases List.mem_cons.mp hg with hgf | hg
        · subst hgf
          exact absurd (matchesFilter_eq.mpr hm) h
        · exact ⟨g, hg, hm⟩

/-! ## Claim theorems -/

/-- Claim C2 (confirmed): for every open position and candle on which both
the stop-loss and the take-profit condition hold, `check_trade_status`
closes the position at the stop-loss — exit at the stop price,
`profit = -distance * size`, `reward_risk = 0` (the loss sentinel) — never
the take-profit outcome. -/
theorem C2_stop_loss_precedence (t : Trade) (cd : Candle)
    (hopen : t.status = TStatus.open_) (hsl : sl_hit t cd)
    (htp : tp_hit t cd) :
    check_trade_status t cd =
      { t with
        status := .closed
        exit_price := some t.stop_loss
        exit_date := some (cd.date ++ " " ++ cd.time)
        profit := -t.distance * t.position_size
        reward_risk := .num 0 } := by
  cases hs : t.side with
  | buy =>
    simp only [sl_hit, hs] at hsl
    simp [check_trade_status, hopen, hs, hsl]
  | sell =>
    simp only [sl_hit, hs] at hsl
    simp [check_trade_status, hopen, hs, hsl]

/-- Witness for C2: a concrete open Buy position on a candle that touches
both the stop and the target closes at the stop with the loss sentinel. -/
theorem C2_stop_loss_precedence_witness :
    check_trade_status
      { side := .buy, entry := 100, stop_loss := 90, take_profit := 110,
        distance := 10, position_size := 1, status := .open_, profit := 0,
        reward_risk := .unset, exit_price := none, exit_date := none }
      { date := "2020.01.01", time := "08:00", open_p := 100, high := 111,
        low := 89, close := 100 } =
      { side := .buy, entry := 100, stop_loss := 90, take_profit := 110,
        distance := 10, position_size := 1, status := .closed,
        profit := -10 * 1, reward_risk := .num 0, exit_price := some 90,
        exit_date := some "2020.01.01 08:00" } :=
  C2_stop_loss_precedence _ _ rfl (by norm_num [sl_hit]) (by norm_num [tp_hit])

/-- Counterexample to claim C6: a still-open Buy position with entry 100,
distance 10 and size 1 finalized at last close 120 has achieved multiple 2
(≥ 1), yet its recorded `reward_risk` is the loss sentinel `"SL"` — the
sentinel is not applied "exactly when the achieved multiple is below 1". -/
theorem C6_counterexample :
    (finalize_open_trade
      { date := "2020.01.02", time := "12:00", open_p := 119, high := 121,
        low := 118, close := 120 }
      { side := .buy, entry := 100, stop_loss := 90, take_profit := 110,
        distance := 10, position_size := 1, status := .open_, profit := 0,
        reward_risk := .unset, exit_price := none,
        exit_date := none }).reward_risk = RRField.slString ∧
    ¬ (calculate_unrealized_pnl
      { side := .buy, entry := 100, stop_loss := 90, take_profit := 110,
        distance := 10, position_size := 1, status := .open_, profit := 0,
        reward_risk := .unset, exit_price := none, exit_date := none }
      120 / 10 < 1) := by
  constructor
  · rfl
  · norm_num [calculate_unrealized_pnl]

/-- Claim C6 (amended): every position still open at the end of the series
is closed synthetically by `run_backtest` at the last candle's close price
with its unrealized P&L as profit, and its `reward_risk` is set to the loss
sentinel `"SL"` unconditionally — regardless of the achieved multiple. -/
theorem C6_amended (last : Candle) (t : Trade)
    (h : t.status = TStatus.open_) :
    finalize_open_trade last t =
      { t with
        reward_risk := RRField.slString
        exit_price := some last.close
        exit_date := some (last.date ++ " " ++ last.time)
        profit := calculate_unrealized_pnl t last.close } := by
  simp [finalize_open_trade, h]

/-- Witness for C6: the finalization applied to a concrete open Sell
position. -/
theorem C6_amended_witness :
    finalize_open_trade
      { date := "2020.01.02", time := "12:00", open_p := 119, high := 121,
        low := 118, close := 120 }
      { side := .sell, entry := 130, stop_loss := 140, take_profit := 120,
        distance := 10, position_size := 2, status := .open_, profit := 0,
        reward_risk := .unset, exit_price := none, exit_date := none } =
      { side := .sell, entry := 130, stop_loss := 140, take_profit := 120,
        distance := 10, position_size := 2, status := .open_,
        profit := calculate_unrealized_pnl
          { side := .sell, entry := 130, stop_loss := 140,
            take_profit := 120, distance := 10, position_size := 2,
            status := .open_, profit := 0, reward_risk := .unset,
            exit_price := none, exit_date := none } 120,
        reward_risk := .slString, exit_price := some 120,
        exit_date := some "2020.01.02 12:00" } :=
  C6_amended _ _ rfl

/-- Counterexample to claim C7: on a doji candle (`close == open`) the
capital-tracking simulator `backtest-trading-bot-v1.py` does not skip —
`get_trade_type` classifies it as a Sell and the open-evaluation step opens
a position on it. -/
theorem C7_counterexample :
    (let cd : Candle :=
      { date := "2020.01.03", time := "08:00", open_p := 100, high := 101,
        low := 99, close := 100 }
     cd.close = cd.open_p ∧ get_trade_type cd = Side.sell ∧
      (open_evaluation cd 5000 []).isSome = true) := by
  refine ⟨rfl, rfl, ?_⟩
  have h1 : is_distance_filtered
      (calculate_distance
        (calculate_entry
          { date := "2020.01.03", time := "08:00", open_p := 100,
            high := 101, low := 99, close := 100 } Side.sell)
        (calculate_stop_loss
          { date := "2020.01.03", time := "08:00", open_p := 100,
            high := 101, low := 99, close := 100 } Side.sell))
      Side.sell = false := by
    have hd : calculate_distance
        (calculate_entry
          { date := "2020.01.03", time := "08:00", open_p := 100,
            high := 101, low := 99, close := 100 } Side.sell)
        (calculate_stop_loss
          { date := "2020.01.03", time := "08:00", open_p := 100,
            high := 101, low := 99, close := 100 } Side.sell) = 7 / 5 := by
      norm_num [calculate_entry, calculate_stop_loss, calculate_distance,
        ENTRY_OFFSET, SL_OFFSET]
    rw [is_distance_filtered, hd]
    have hf : ⌊(7 : ℚ) / 5⌋ = 1 := by norm_num
    rw [hf]
    decide
  have ht : get_trade_type
      { date := "2020.01.03", time := "08:00", open_p := 100, high := 101,
        low := 99, close := 100 } = Side.sell := rfl
  simp only [open_evaluation, ht, h1]
  norm_num [EXCLUDED_TIME]
  decide

/-- Claim C7 (amended): the lightweight simulator (`main.py`) skips a doji
silently — no direction is assigned, no trade is recorded, and the loop
continues — while `backtest-trading-bot-v1.py` classifies a doji as a Sell
(and may open a position on it). -/
theorem C7_amended :
    (∀ (eo so : ℚ) (cd : Candle), cd.close = cd.open_p →
      decide_direction eo so cd = none) ∧
    (∀ cd : Candle, cd.close = cd.open_p → get_trade_type cd = Side.sell) := by
  constructor
  · intro eo so cd h
    simp [decide_direction, h]
  · intro cd h
    simp [get_trade_type, h]

/-- Witness for C7: the doji skip of `main.py` evaluated on a concrete
candle. -/
theorem C7_amended_witness :
    decide_direction (2 / 10) (2 / 10)
      { date := "2020.01.03", time := "08:00", open_p := 100, high := 101,
        low := 99, close := 100 } = none :=
  C7_amended.1 (2 / 10) (2 / 10) _ rfl

/-- Counterexample to claim C8: the filter is evaluated on the floor of the
distance, not on the nearest integer.  At distance 3.7 on the Buy side the
source filter fires (⌊3.7⌋ = 3 is forbidden) while the spec's
nearest-integer rule does not (round(3.7) = 4 is not forbidden). -/
theorem C8_counterexample :
    is_distance_filtered (37 / 10) Side.buy = true ∧
    is_distance_filtered_nearest (37 / 10) Side.buy = false := by
  have h1 : ⌊(37 : ℚ) / 10⌋ = 3 := by norm_num
  have h2 : round ((37 : ℚ) / 10) = 4 := by norm_num [round_eq]
  constructor
  · show filterLoop ⌊(37 : ℚ) / 10⌋ (DISTANCE_FILTERS Side.buy) = true
    rw [h1]
    decide
  · show filterLoop (round ((37 : ℚ) / 10)) (DISTANCE_FILTERS Side.buy) = false
    rw [h2]
    decide

/-- Claim C8 (amended): the forbidden-distance filter rounds the distance
DOWN (`int(np.floor(distance))`) — one rule, applied to every candidate of
a run — and rejects exactly when that floored distance lies in the
side-specific set of forbidden integers and inclusive integer ranges. -/
theorem C8_amended (d : ℚ) (side : Side) :
    is_distance_filtered d side = true ↔
      ∃ f ∈ DISTANCE_FILTERS side, matchesSpec ⌊d⌋ f :=
  filterLoop_iff ⌊d⌋ (DISTANCE_FILTERS side)

/-- The claim's "cumulative sum of mapped values from s through i": the sum
of the mapped values at positions `s, s+1, ..., i`. -/
def segSum (vals : List ℤ) (s i : ℕ) : ℤ :=
  ((vals.drop s).take (i + 1 - s)).sum

lemma mem_cumsum {l : List ℤ} {c : ℤ} :
    c ∈ cumsum l ↔ ∃ k, k < l.length ∧ (l.take (k + 1)).sum = c := by
  rw [cumsum_eq_map_range]
  simp [List.mem_map, List.mem_range]

lemma cumsum_length (l : List ℤ) : (cumsum l).length = l.length := by
  rw [cumsum_eq_map_range]
  simp

/-- Claim C1 (confirmed): for every outcome sequence and integer threshold
`R ≥ 1` the vectorized analyzer maps each outcome to `+R` when its multiple
is `≥ R` and to `-1` otherwise, and the lowest point for a candidate start
`s` is the minimum over all positions `i ≥ s` of
`min(cumulative sum from s through i, 0)` (stated as: it is a lower bound
of that family and is attained by some `i`); on the concrete multiples
`[2, 0, 1, 0, 3]` with `R = 1` the candidate starts are `{1, 3}` and the
result is `absolute_lowest = -1` with `worst_start_index = 1`. -/
theorem C1_mapping_and_lowest_point (rr : List RR) (R : ℤ) (s : ℕ)
    (hR : 1 ≤ R) (hs : s < rr.length) :
    values rr R =
      rr.map (fun c => if (R : ℚ) ≤ convert_to_numeric c then R else -1) ∧
    (∀ i, s ≤ i → i < rr.length →
      lowestInRun ((values rr R).drop s) ≤ min (segSum (values rr R) s i) 0) ∧
    (∃ i, s ≤ i ∧ i < rr.length ∧
      lowestInRun ((values rr R).drop s) = min (segSum (values rr R) s i) 0) ∧
    sl_positions [RR.num 2, RR.sl, RR.num 1, RR.sl, RR.num 3] = [1, 3] ∧
    nfLevel [RR.num 2, RR.sl, RR.num 1, RR.sl, RR.num 3] 1 = some (-1, 1) := by
  have hlen : (values rr R).length = rr.length := by simp [values]
  have hdlen : ((values rr R).drop s).length = rr.length - s := by
    rw [List.length_drop, hlen]
  refine ⟨rfl, ?_, ?_, by decide, by decide⟩
  · intro i hsi hin
    have hk : i - s < ((values rr R).drop s).length := by
      rw [hdlen]; omega
    have hmem : (((values rr R).drop s).take (i - s + 1)).sum ∈
        cumsum ((values rr R).drop s) :=
      mem_cumsum.mpr ⟨i - s, hk, rfl⟩
    have hmem2 : min ((((values rr R).drop s).take (i - s + 1)).sum) 0 ∈
        (cumsum ((values rr R).drop s)).map (fun c => min c 0) :=
      List.mem_map_of_mem _ hmem
    have hle := npMin_le _ _ hmem2
    have hseg : segSum (values rr R) s i =
        (((values rr R).drop s).take (i - s + 1)).sum := by
      unfold segSum
      have heq : i + 1 - s = i - s + 1 := by omega
      rw [heq]
    rw [hseg]
    exact hle
  · have hne : (cumsum ((values rr R).drop s)).map (fun c => min c 0) ≠ [] := by
      have hpos : 0 <
          ((cumsum ((values rr R).drop s)).map (fun c => min c 0)).length := by
        rw [List.length_map, cumsum_length, hdlen]; omega
      exact List.ne_nil_of_length_pos hpos
    have hmem := npMin_mem _ hne
    obtain ⟨c, hc, heq⟩ := List.mem_map.mp hmem
    obtain ⟨k, hk, hcs⟩ := mem_cumsum.mp hc
    rw [hdlen] at hk
    refine ⟨s + k, by omega, by omega, ?_⟩
    have hseg : segSum (values rr R) s (s + k) =
        (((values rr R).drop s).take (k + 1)).sum := by
      unfold segSum
      have heq2 : s + k + 1 - s = k + 1 := by omega
      rw [heq2]
    rw [hseg, hcs]
    exact heq.symm

/-- Witness for C1 at the concrete scenario: outcome multiples
`[2, 0, 1, 0, 3]`, threshold 1, candidate start 1, position 2. -/
theorem C1_mapping_and_lowest_point_witness :
    lowestInRun ((values [RR.num 2, RR.sl, RR.num 1, RR.sl, RR.num 3] 1).drop 1) ≤
      min (segSum (values [RR.num 2, RR.sl, RR.num 1, RR.sl, RR.num 3] 1) 1 2) 0 :=
  (C1_mapping_and_lowest_point [RR.num 2, RR.sl, RR.num 1, RR.sl, RR.num 3]
    1 1 (by decide) (by decide)).2.1 2 (by decide) (by decide)

/-- Counterexample to claim C3: on the mapped sequence of `[1(win), SL]` at
threshold 2 with the shared candidate start set `{1}`, the nested-loop
variant (whose accumulator starts at the phase-1 whole-sequence lowest with
start index 0) returns `(-2, 0)` while the cumulative-sum variant (whose
accumulator starts at infinity) returns `(-1, 1)`: neither the
absolute_lowest nor the worst start index coincide. -/
theorem C3_counterexample :
    nestedAggregate [RR.num 1, RR.sl] 2 [1] = (-2, 0) ∧
    vecAggregate [RR.num 1, RR.sl] 2 [1] = some (-1, 1) ∧
    ((-2 : ℤ), (0 : ℕ)) ≠ ((-1 : ℤ), (1 : ℕ)) :=
  ⟨rfl, rfl, by decide⟩

/-- Claim C3 (amended): the naive per-start forward scan equals the
vectorized closed form `min(min(cumsum), 0)` for every mapped value list;
consequently the nested-loop aggregation over a candidate start set `S`
coincides with the cumulative-sum aggregation over `0 :: S` — the two
variants agree on a common candidate set exactly when the implicit start 0
of the nested variant's phase 1 is part of it.  The naive variant's
per-level result is the nested aggregation over its collected
zero-crossing candidates. -/
theorem C3_amended :
    (∀ vals : List ℤ,
      naiveScanLowest vals = min (npMin (cumsum vals)) 0 ∧
      naiveScanLowest vals = lowestInRun vals) ∧
    (∀ (rr : List RR) (R : ℤ) (S : List ℕ),
      vecAggregate rr R (0 :: S) = some (nestedAggregate rr R S)) ∧
    (∀ (rr : List RR) (R : ℤ) (st : P1State), phase1 rr R = Except.ok st →
      naiveLevel rr R = Except.ok (nestedAggregate rr R st.zeros)) := by
  refine ⟨fun vals =>
    ⟨naiveScanLowest_eq vals, naiveScanLowest_eq_lowestInRun vals⟩, ?_, ?_⟩
  · intro rr R S
    show (0 :: S).foldl
      (selStep (fun s => lowestInRun ((values rr R).drop s))) none = _
    rw [List.foldl_cons]
    show S.foldl (selStep (fun s => lowestInRun ((values rr R).drop s)))
      (some (lowestInRun ((values rr R).drop 0), 0)) = _
    rw [foldl_selStep_some]
    have hf : (fun s => lowestInRun ((values rr R).drop s)) =
        (fun s => naiveScanLowest ((values rr R).drop s)) := by
      funext s
      exact (naiveScanLowest_eq_lowestInRun _).symm
    rw [hf, List.drop_zero, ← naiveScanLowest_eq_lowestInRun (values rr R)]
    rfl
  · intro rr R st h
    show naiveLevel rr R = _
    simp only [naiveLevel, h]
    rw [phase1_lowest h]
    rfl

/-- Witness for C3's phase-1 clause: on `[SL]` at threshold 1, phase 1
succeeds with no zero-crossing candidates and the naive level result is the
nested aggregation over the empty candidate list. -/
theorem C3_amended_witness :
    naiveLevel [RR.sl] 1 = Except.ok (nestedAggregate [RR.sl] 1 []) :=
  C3_amended.2.2 [RR.sl] 1 ⟨-1, -1, [], none⟩ (by rfl)

/-- Claim C4 (confirmed): whenever the vectorized analyzer has at least one
candidate start, its per-level result exists; the absolute lowest is
non-positive, and it is 0 only if no candidate start's cumulative sum ever
goes negative; the worst start index is an SL position of the sequence
(its multiple is the loss sentinel 0); and among candidate starts attaining
the lowest value the first in sequence order is returned. -/
theorem C4_result_contract (rr : List RR) (R : ℤ)
    (h : sl_positions rr ≠ []) :
    ∃ low worst, nfLevel rr R = some (low, worst) ∧
      low ≤ 0 ∧
      (low = 0 → ∀ s ∈ sl_positions rr,
        ∀ c ∈ cumsum ((values rr R).drop s), 0 ≤ c) ∧
      worst ∈ sl_positions rr ∧
      convert_to_numeric (rr.getD worst RR.sl) = 0 ∧
      (sl_positions rr).find?
        (fun s => lowestInRun ((values rr R).drop s) == low) = some worst := by
  obtain ⟨low, w, hfold, hbnd, hwmem, hlowf, hfind⟩ :=
    foldl_selStep_none_spec (fun s => lowestInRun ((values rr R).drop s))
      (sl_positions rr) h
  refine ⟨low, w, hfold, ?_, ?_, hwmem, ?_, hfind⟩
  · rw [hlowf]
    exact lowestInRun_nonpos _
  · intro h0 s hs c hc
    have h1 : (0 : ℤ) ≤ lowestInRun ((values rr R).drop s) := h0 ▸ hbnd s hs
    rw [lowestInRun_eq] at h1
    have h2 : (0 : ℤ) ≤ npMin (cumsum ((values rr R).drop s)) :=
      le_trans h1 (min_le_left _ _)
    exact le_trans h2 (npMin_le _ c hc)
  · have hfilter := List.mem_filter.mp hwmem
    exact of_decide_eq_true hfilter.2

/-- Witness for C4 at the concrete multiples `[2, 0, 1, 0, 3]` with
threshold 1. -/
theorem C4_result_contract_witness :
    ∃ low worst,
      nfLevel [RR.num 2, RR.sl, RR.num 1, RR.sl, RR.num 3] 1 =
        some (low, worst) ∧
      low ≤ 0 ∧
      (low = 0 → ∀ s ∈ sl_positions [RR.num 2, RR.sl, RR.num 1, RR.sl, RR.num 3],
        ∀ c ∈ cumsum ((values [RR.num 2, RR.sl, RR.num 1, RR.sl, RR.num 3] 1).drop s),
          0 ≤ c) ∧
      worst ∈ sl_positions [RR.num 2, RR.sl, RR.num 1, RR.sl, RR.num 3] ∧
      convert_to_numeric
        ([RR.num 2, RR.sl, RR.num 1, RR.sl, RR.num 3].getD worst RR.sl) = 0 ∧
      (sl_positions [RR.num 2, RR.sl, RR.num 1, RR.sl, RR.num 3]).find?
        (fun s =>
          lowestInRun ((values [RR.num 2, RR.sl, RR.num 1, RR.sl, RR.num 3] 1).drop s)
            == low) = some worst :=
  C4_result_contract [RR.num 2, RR.sl, RR.num 1, RR.sl, RR.num 3] 1 (by decide)

/-- Counterexample to claim C5: the analyzers do fail on outcome sequences
without loss outcomes.  The vectorized variant rejects `[1]` (no SL
position) with an error return and produces no per-threshold results; the
naive variant aborts with a `NameError` on the no-loss input `[1, 1, 3]`
(at reward level 2 the running total touches 0 with no later SL). -/
theorem C5_counterexample :
    (∀ x ∈ [RR.num 1], convert_to_numeric x ≠ 0) ∧
    calculate_lowest_drawdown_vec [RR.num 1] = none ∧
    (∀ x ∈ [RR.num 1, RR.num 1, RR.num 3], convert_to_numeric x ≠ 0) ∧
    calculate_lowest_drawdown_naive [RR.num 1, RR.num 1, RR.num 3] =
      Except.error DDErr.nameError :=
  ⟨by decide, rfl, by decide, rfl⟩

/-- Claim C5 (amended): on a no-loss sequence the vectorized variant fails
with its no-SL error, and the naive variant returns the fallback — the
whole-sequence result from start index 0, equal to the naive forward-scan
computation `min(min(cumsum), 0)` — provided its phase 1 collected no
zero-crossing candidates (otherwise it aborts on the unbound
`next_sl_idx`). -/
theorem C5_amended (rr : List RR) (R : ℤ) (st : P1State)
    (h1 : phase1 rr R = Except.ok st) (h2 : st.zeros = []) :
    naiveLevel rr R = Except.ok (st.lowest, 0) ∧
    st.lowest = naiveScanLowest (values rr R) ∧
    st.lowest = min (npMin (cumsum (values rr R))) 0 := by
  refine ⟨?_, phase1_lowest h1, ?_⟩
  · simp only [naiveLevel, h1, h2]
    rfl
  · rw [phase1_lowest h1, naiveScanLowest_eq]

/-- Witness for C5 on the no-loss sequence `[1]` at threshold 1: phase 1
succeeds with no candidates and the fallback result from start 0 is
returned. -/
theorem C5_amended_witness :
    naiveLevel [RR.num 1] 1 = Except.ok (0, 0) :=
  (C5_amended [RR.num 1] 1 ⟨1, 0, [], none⟩ rfl rfl).1

/-- Claim C9 (confirmed): on the empty outcome sequence the drawdown
analyzer fails and produces no synthetic per-threshold results: the
vectorized variant returns without any result rows, and the naive variant
raises on `int(nan)` before computing any level. -/
theorem C9_empty_sequence_fails :
    calculate_lowest_drawdown_vec [] = none ∧
    calculate_lowest_drawdown_naive [] = Except.error DDErr.valueError :=
  ⟨rfl, rfl⟩

/-- Claim C10 (confirmed): on the no-SL input `[1, 1, 2]` the running total
of reward level 2 reaches exactly 0 at index 2 with no SL outcome after it
and no earlier zero-crossing, so the candidate-collection step reads
`next_sl_idx` before any assignment and the naive variant aborts with an
unhandled `NameError` instead of returning results. -/
theorem C10_unbound_local_aborts :
    calculate_lowest_drawdown_naive [RR.num 1, RR.num 1, RR.num 2] =
      Except.error DDErr.nameError ∧
    phase1 [RR.num 1, RR.num 1, RR.num 2] 2 = Except.error DDErr.nameError ∧
    (∀ x ∈ [RR.num 1, RR.num 1, RR.num 2], isSLCell x = false) :=
  ⟨rfl, rfl, by decide⟩

end TradingBot
